import Mathlib

/-!
Shallow embedding of the stable-memory I/O layer of this repository
(`src/ic-cdk/src/api/stable/`).

The cursor engine `StableIO<M, A>` from `stable_io.rs` is embedded as `StableIo`
below.  The Rust code is generic over the address width `A ∈ {u32, u64}`; here
every operation takes the bit width `w` explicitly and performs the wrapping
arithmetic of the address type as arithmetic on `Nat` reduced `% 2 ^ w`
(release-mode Rust integer semantics).  The `StableMemory` capability (trait in
`stable_memory.rs`, implemented outside the core by host calls) is embedded as
an explicit in-memory page region `PageMemory` following the capability
contract: `stable_grow_` returns the page count from just before the growth and
fails with `OutOfMemory` when the host ceiling (`maxPages`) would be exceeded,
raw reads and writes act directly on the byte map.
-/

/-- `WASM_PAGE_SIZE_IN_BYTES` from `stable_io.rs`: pages are 64 KiB. -/
def WASM_PAGE_SIZE_IN_BYTES : Nat := 64 * 1024

/-- The two error values of `StableMemoryError` in `stable_memory.rs`. -/
inductive StableMemoryError where
  | OutOfMemory
  | OutOfBounds
  deriving DecidableEq, Repr

/-- Wrapping addition of the address type of width `w`. -/
def wadd (w a b : Nat) : Nat := (a + b) % 2 ^ w

/-- Wrapping subtraction of the address type of width `w`. -/
def wsub (w a b : Nat) : Nat := (a % 2 ^ w + (2 ^ w - b % 2 ^ w)) % 2 ^ w

/-- Reinterpretation of an unsigned 64-bit value as `i64` (the `as i64` cast). -/
def toI64 (x : Nat) : Int :=
  if x % 2 ^ 64 < 2 ^ 63 then ((x % 2 ^ 64 : Nat) : Int)
  else ((x % 2 ^ 64 : Nat) : Int) - 2 ^ 64

/-- Wrapping `i64` arithmetic result (release-mode overflow semantics). -/
def wrapI64 (v : Int) : Int := (v + 2 ^ 63) % 2 ^ 64 - 2 ^ 63

/-- Conversion of a signed value to the unsigned address type of width `w`
(the `as $address` cast on a signed intermediate). -/
def toAddr (w : Nat) (v : Int) : Nat := (v % ((2 ^ w : Nat) : Int)).toNat

/-- The byte region behind the `StableMemory` capability: a current page
count, the host's growth ceiling, and the byte at every address.  The cursor
engine only touches it through the four capability operations below. -/
structure PageMemory where
  pages : Nat
  maxPages : Nat
  data : Nat → Nat

/-- Pointwise effect of a raw byte-slice write at offset `off`. -/
def writeBytes (d : Nat → Nat) (off : Nat) (buf : List Nat) : Nat → Nat :=
  fun a => if off ≤ a ∧ a < off + buf.length then buf.getD (a - off) 0 else d a

/-- The byte slice of length `len` starting at offset `off`. -/
def readBytes (d : Nat → Nat) (off len : Nat) : List Nat :=
  (List.range len).map fun i => d (off + i)

/-- Capability `stable_size_`: current size of the region, in pages. -/
def PageMemory.stable_size_ (m : PageMemory) : Nat := m.pages

/-- Capability `stable_grow_`: grows the region by `new_pages` pages and
returns the page count from just before the growth, or fails with
`OutOfMemory` when the host ceiling would be exceeded.  Failure leaves the
region untouched (growth is atomic per the capability contract). -/
def PageMemory.stable_grow_ (m : PageMemory) (new_pages : Nat) :
    Except StableMemoryError (Nat × PageMemory) :=
  if m.pages + new_pages ≤ m.maxPages then
    .ok (m.pages, { m with pages := m.pages + new_pages })
  else
    .error .OutOfMemory

/-- Capability `stable_write_`: raw byte write at `offset`. -/
def PageMemory.stable_write_ (m : PageMemory) (offset : Nat) (buf : List Nat) :
    PageMemory :=
  { m with data := writeBytes m.data offset buf }

/-- Capability `stable_read_`: raw read of `len` bytes at `offset`. -/
def PageMemory.stable_read_ (m : PageMemory) (offset len : Nat) : List Nat :=
  readBytes m.data offset len

/-- The cursor of `stable_io.rs`: offset of the next access, cached capacity
in pages, and the handle to the page memory.  In the Rust source `offset` and
`capacity` have the address type; the wrapping operations below keep both
below `2 ^ w`. -/
structure StableIo where
  offset : Nat
  capacity : Nat
  memory : PageMemory

/-- `StableIO::with_memory` (stable_io.rs:41): caches the capability's current
page count as `capacity`. -/
def StableIo.with_memory (memory : PageMemory) (offset : Nat) : StableIo :=
  { offset := offset, capacity := memory.stable_size_, memory := memory }

/-- `StableIO::grow` (stable_io.rs:57): grows through the capability and, on
success, recomputes the cached capacity from the capability's own
before-growth report.  On failure the cursor is untouched. -/
def StableIo.grow (w : Nat) (s : StableIo) (new_pages : Nat) :
    Except StableMemoryError Unit × StableIo :=
  match s.memory.stable_grow_ new_pages with
  | .error e => (.error e, s)
  | .ok (old_page_count, m) =>
      (.ok (), { s with capacity := wadd w old_page_count new_pages, memory := m })

/-- `StableIO::write` (stable_io.rs:67): computes the required capacity in
pages (rounding up), grows by the saturating shortfall when it is positive,
then performs the raw write and advances the offset by the buffer length. -/
def StableIo.write (w : Nat) (s : StableIo) (buf : List Nat) :
    Except StableMemoryError Nat × StableIo :=
  let required_capacity_bytes := wadd w s.offset buf.length
  let required_capacity_pages :=
    wsub w (wadd w required_capacity_bytes WASM_PAGE_SIZE_IN_BYTES) 1 /
      WASM_PAGE_SIZE_IN_BYTES
  let current_pages := s.capacity
  let additional_pages_required := required_capacity_pages - current_pages
  match
    (if 0 < additional_pages_required then s.grow w additional_pages_required
     else (.ok (), s))
  with
  | (.error e, s1) => (.error e, s1)
  | (.ok _, s1) =>
      (.ok buf.length,
        { s1 with
            offset := wadd w s1.offset buf.length
            memory := s1.memory.stable_write_ s1.offset buf })

/-- `StableIO::read` (stable_io.rs:93): bounds-checks against the cached
capacity, truncating a read that starts in bounds but would overrun, and
failing with `OutOfBounds` when the offset is not below the capacity in
bytes.  On the error path the cursor is untouched (early return). -/
def StableIo.read (w : Nat) (s : StableIo) (len : Nat) :
    Except StableMemoryError (List Nat) × StableIo :=
  let capacity_bytes := s.capacity * WASM_PAGE_SIZE_IN_BYTES % 2 ^ w
  if capacity_bytes < wadd w len s.offset then
    if s.offset < capacity_bytes then
      (.ok (s.memory.stable_read_ s.offset (capacity_bytes - s.offset)),
        { s with offset := wadd w s.offset (capacity_bytes - s.offset) })
    else
      (.error .OutOfBounds, s)
  else
    (.ok (s.memory.stable_read_ s.offset len), { s with offset := wadd w s.offset len })

/-- The three variants of `std::io::SeekFrom`: `Start(u64)`, `End(i64)`,
`Current(i64)`. -/
inductive SeekFrom where
  | start (n : Nat)
  | fromEnd (n : Int)
  | current (n : Int)

/-- `StableIO::seek` (stable_io.rs:110): sets the offset with no bounds check
and no capability call, and returns the new offset (the source wraps it in
`Ok` unconditionally, so the operation never fails). -/
def StableIo.seek (w : Nat) (s : StableIo) (pos : SeekFrom) : Nat × StableIo :=
  let new_offset :=
    match pos with
    | .start n => n % 2 ^ w
    | .fromEnd n =>
        toAddr w (wrapI64 (toI64 (s.capacity * WASM_PAGE_SIZE_IN_BYTES % 2 ^ w) + n))
    | .current n => toAddr w (wrapI64 (toI64 s.offset + n))
  (new_offset % 2 ^ 64, { s with offset := new_offset })

/-- The `io::Read` implementation for `StableIO` (stable_io.rs:141):
`Self::read(self, buf).or(Ok(0))` — any failure of the inner read is replaced
by a successful zero-byte read. -/
def StableIo.ioRead (w : Nat) (s : StableIo) (len : Nat) :
    Except StableMemoryError (List Nat) × StableIo :=
  match s.read w len with
  | (.ok bytes, s1) => (.ok bytes, s1)
  | (.error _, s1) => (.ok [], s1)

/-- A finite sequence of writes through one cursor (`stable_writer.rs` writes
delegate one-to-one to `StableIO::write`); stops at the first failure. -/
def StableIo.writeSeq (w : Nat) (s : StableIo) (bufs : List (List Nat)) :
    Except StableMemoryError Unit × StableIo :=
  match bufs with
  | [] => (.ok (), s)
  | b :: rest =>
      match s.write w b with
      | (.ok _, s1) => StableIo.writeSeq w s1 rest
      | (.error e, s1) => (.error e, s1)

/-- `BufferedStableReader` (stable_reader.rs:64): a `BufReader` around a
`StableReader` (which is the 32-bit cursor).  `bufData` is the
fetched-but-undelivered part of the internal buffer. -/
structure BufferedStableReader where
  bufData : List Nat
  bufSize : Nat
  inner : StableIo

/-- `BufferedStableReader::with_reader` (stable_reader.rs:77): empty buffer of
the requested size around the given reader. -/
def BufferedStableReader.with_reader (buffer_size : Nat) (reader : StableIo) :
    BufferedStableReader :=
  { bufData := [], bufSize := buffer_size, inner := reader }

/-- `BufferedStableReader::offset` (stable_reader.rs:84): delegates to the
inner cursor's offset. -/
def BufferedStableReader.offset (r : BufferedStableReader) : Nat :=
  r.inner.offset

/-- One `read` through the buffered reader.  The buffering follows the
documented behaviour of the standard `BufReader` (external library code,
described in the spec's buffered-reader section): with an empty buffer and a
request at least as large as the buffer it bypasses the buffer entirely;
otherwise it refills the buffer with one inner read when empty and serves the
request from the buffer.  The inner reads go through the `io::Read`
implementation for the cursor, hence `ioRead` at width 32. -/
def BufferedStableReader.read (r : BufferedStableReader) (len : Nat) :
    Except StableMemoryError (List Nat) × BufferedStableReader :=
  if r.bufData = [] ∧ r.bufSize ≤ len then
    match r.inner.ioRead 32 len with
    | (.ok bytes, s1) => (.ok bytes, { r with inner := s1 })
    | (.error e, s1) => (.error e, { r with inner := s1 })
  else
    let filled :=
      if r.bufData = [] then
        match r.inner.ioRead 32 r.bufSize with
        | (.ok bytes, s1) => (bytes, s1)
        | (.error _, s1) => (([] : List Nat), s1)
      else (r.bufData, r.inner)
    let n := min len filled.1.length
    (.ok (filled.1.take n),
      { r with bufData := filled.1.drop n, inner := filled.2 })

/-- The whole-pages round-up used by `StableIO::write`:
`ceil(bytes / page size)`. -/
def ceilPages (b : Nat) : Nat :=
  (b + WASM_PAGE_SIZE_IN_BYTES - 1) / WASM_PAGE_SIZE_IN_BYTES

/-- Total byte length of a sequence of buffers. -/
def totalLen (bufs : List (List Nat)) : Nat := (bufs.map List.length).sum

/-! Fixtures used by witnesses and counterexamples. -/

def memA : PageMemory := { pages := 0, maxPages := 8, data := fun _ => 0 }

def memB : PageMemory := { pages := 1, maxPages := 8, data := fun a => a % 256 }

def memC : PageMemory := { pages := 0, maxPages := 0, data := fun _ => 0 }

def sioA : StableIo := StableIo.with_memory memA 0

def sio1 : StableIo := { offset := 60000, capacity := 1, memory := memB }

def memD : PageMemory := { pages := 1, maxPages := 1, data := fun a => a % 256 }

def rdr9 : BufferedStableReader :=
  BufferedStableReader.with_reader 4 (StableIo.with_memory memD 0)

def c5wit : StableIo :=
  { offset := 5, capacity := 1,
    memory := { pages := 1, maxPages := 8,
                data := writeBytes (writeBytes memA.data 0 [1, 2, 3]) 3 [4, 5] } }

def c8wit : StableIo :=
  { offset := 5, capacity := 1,
    memory := { pages := 1, maxPages := 8, data := writeBytes memA.data 2 [7, 8, 9] } }

/-! Arithmetic helper lemmas about the wrapping operations and the page
round-up. -/

theorem pageSize_eq : WASM_PAGE_SIZE_IN_BYTES = 65536 := rfl

theorem wadd_eq (w a b : Nat) (h : a + b < 2 ^ w) : wadd w a b = a + b :=
  Nat.mod_eq_of_lt h

theorem wsub_one (w a : Nat) (h0 : 0 < a) (ha : a < 2 ^ w) : wsub w a 1 = a - 1 := by
  have h2 : 1 < 2 ^ w := lt_of_le_of_lt h0 ha
  unfold wsub
  rw [Nat.mod_eq_of_lt ha, Nat.mod_eq_of_lt h2]
  have h3 : a + (2 ^ w - 1) = a - 1 + 2 ^ w := by omega
  rw [h3, Nat.add_mod_right, Nat.mod_eq_of_lt (by omega)]

theorem le_ceilPages_mul (b : Nat) : b ≤ ceilPages b * WASM_PAGE_SIZE_IN_BYTES := by
  simp only [ceilPages, pageSize_eq]
  omega

theorem ceilPages_le_mul (b c : Nat) (h : ceilPages b ≤ c) :
    b ≤ c * WASM_PAGE_SIZE_IN_BYTES :=
  le_trans (le_ceilPages_mul b) (Nat.mul_le_mul_right _ h)

theorem readBytes_length (d : Nat → Nat) (off len : Nat) :
    (readBytes d off len).length = len := by
  simp [readBytes]

theorem range_map_getD (S : List Nat) :
    (List.range S.length).map (fun i => S.getD i 0) = S := by
  induction S with
  | nil => rfl
  | cons a T ih =>
      simp only [List.length_cons, List.range_succ_eq_map, List.map_cons, List.map_map,
        Function.comp_def, List.getD_cons_zero, List.getD_cons_succ, List.cons.injEq,
        true_and]
      exact ih

theorem readBytes_writeBytes (d : Nat → Nat) (off : Nat) (S : List Nat) :
    readBytes (writeBytes d off S) off S.length = S := by
  unfold readBytes
  have h : ∀ i ∈ List.range S.length,
      writeBytes d off S (off + i) = S.getD i 0 := by
    intro i hi
    rw [List.mem_range] at hi
    unfold writeBytes
    rw [if_pos ⟨Nat.le_add_right _ _, by omega⟩, Nat.add_sub_cancel_left]
  rw [List.map_congr_left h, range_map_getD]

/-! Branch characterizations of `StableIo.write` and `StableIo.read` under
no-overflow side conditions, proved directly from the definitions. -/

theorem write_nogrow (w : Nat) (s : StableIo) (buf : List Nat)
    (hbound : s.offset + buf.length + WASM_PAGE_SIZE_IN_BYTES < 2 ^ w)
    (hle : ceilPages (s.offset + buf.length) ≤ s.capacity) :
    s.write w buf =
      (.ok buf.length,
        { s with offset := s.offset + buf.length,
                 memory := s.memory.stable_write_ s.offset buf }) := by
  have h1 : wadd w s.offset buf.length = s.offset + buf.length := wadd_eq _ _ _ (by omega)
  have h2 : wadd w (s.offset + buf.length) WASM_PAGE_SIZE_IN_BYTES
      = s.offset + buf.length + WASM_PAGE_SIZE_IN_BYTES := wadd_eq _ _ _ hbound
  have h3 : wsub w (s.offset + buf.length + WASM_PAGE_SIZE_IN_BYTES) 1
      = s.offset + buf.length + WASM_PAGE_SIZE_IN_BYTES - 1 :=
    wsub_one _ _ (by simp [pageSize_eq]) hbound
  have hcond : ¬ (0 < (s.offset + buf.length + WASM_PAGE_SIZE_IN_BYTES - 1) /
      WASM_PAGE_SIZE_IN_BYTES - s.capacity) := by
    simp only [ceilPages, pageSize_eq] at hle
    simp only [pageSize_eq]
    omega
  simp only [StableIo.write, h1, h2, h3]
  rw [if_neg hcond]
  simp only [h1]

theorem write_grow_ok (w : Nat) (s : StableIo) (buf : List Nat)
    (hbound : s.offset + buf.length + WASM_PAGE_SIZE_IN_BYTES < 2 ^ w)
    (hmax : s.memory.maxPages < 2 ^ w)
    (hgt : s.capacity < ceilPages (s.offset + buf.length))
    (hfit : s.memory.pages + (ceilPages (s.offset + buf.length) - s.capacity)
      ≤ s.memory.maxPages) :
    s.write w buf =
      (.ok buf.length,
        { offset := s.offset + buf.length,
          capacity := s.memory.pages + (ceilPages (s.offset + buf.length) - s.capacity),
          memory :=
            { pages := s.memory.pages + (ceilPages (s.offset + buf.length) - s.capacity),
              maxPages := s.memory.maxPages,
              data := writeBytes s.memory.data s.offset buf } }) := by
  have h1 : wadd w s.offset buf.length = s.offset + buf.length := wadd_eq _ _ _ (by omega)
  have h2 : wadd w (s.offset + buf.length) WASM_PAGE_SIZE_IN_BYTES
      = s.offset + buf.length + WASM_PAGE_SIZE_IN_BYTES := wadd_eq _ _ _ hbound
  have h3 : wsub w (s.offset + buf.length + WASM_PAGE_SIZE_IN_BYTES) 1
      = s.offset + buf.length + WASM_PAGE_SIZE_IN_BYTES - 1 :=
    wsub_one _ _ (by simp [pageSize_eq]) hbound
  have hceil : (s.offset + buf.length + WASM_PAGE_SIZE_IN_BYTES - 1) /
      WASM_PAGE_SIZE_IN_BYTES = ceilPages (s.offset + buf.length) := rfl
  have hcond : 0 < ceilPages (s.offset + buf.length) - s.capacity := by omega
  have h4 : wadd w s.memory.pages (ceilPages (s.offset + buf.length) - s.capacity)
      = s.memory.pages + (ceilPages (s.offset + buf.length) - s.capacity) :=
    wadd_eq _ _ _ (by omega)
  simp only [StableIo.write, h1, h2, h3, hceil]
  rw [if_pos hcond]
  simp only [StableIo.grow, PageMemory.stable_grow_]
  rw [if_pos hfit]
  simp only [h4, h1, PageMemory.stable_write_]

theorem write_grow_fail (w : Nat) (s : StableIo) (buf : List Nat)
    (hbound : s.offset + buf.length + WASM_PAGE_SIZE_IN_BYTES < 2 ^ w)
    (hgt : s.capacity < ceilPages (s.offset + buf.length))
    (hnofit : s.memory.maxPages <
      s.memory.pages + (ceilPages (s.offset + buf.length) - s.capacity)) :
    s.write w buf = (.error .OutOfMemory, s) := by
  have h1 : wadd w s.offset buf.length = s.offset + buf.length := wadd_eq _ _ _ (by omega)
  have h2 : wadd w (s.offset + buf.length) WASM_PAGE_SIZE_IN_BYTES
      = s.offset + buf.length + WASM_PAGE_SIZE_IN_BYTES := wadd_eq _ _ _ hbound
  have h3 : wsub w (s.offset + buf.length + WASM_PAGE_SIZE_IN_BYTES) 1
      = s.offset + buf.length + WASM_PAGE_SIZE_IN_BYTES - 1 :=
    wsub_one _ _ (by simp [pageSize_eq]) hbound
  have hceil : (s.offset + buf.length + WASM_PAGE_SIZE_IN_BYTES - 1) /
      WASM_PAGE_SIZE_IN_BYTES = ceilPages (s.offset + buf.length) := rfl
  have hcond : 0 < ceilPages (s.offset + buf.length) - s.capacity := by omega
  simp only [StableIo.write, h1, h2, h3, hceil]
  rw [if_pos hcond]
  simp only [StableIo.grow, PageMemory.stable_grow_]
  rw [if_neg (by omega)]

theorem read_full (w : Nat) (s : StableIo) (len : Nat)
    (hcap : s.capacity * WASM_PAGE_SIZE_IN_BYTES < 2 ^ w)
    (hov : s.offset + len < 2 ^ w)
    (hle : s.offset + len ≤ s.capacity * WASM_PAGE_SIZE_IN_BYTES) :
    s.read w len =
      (.ok (readBytes s.memory.data s.offset len), { s with offset := s.offset + len }) := by
  have hcb : s.capacity * WASM_PAGE_SIZE_IN_BYTES % 2 ^ w
      = s.capacity * WASM_PAGE_SIZE_IN_BYTES := Nat.mod_eq_of_lt hcap
  have h1 : wadd w len s.offset = len + s.offset := wadd_eq _ _ _ (by omega)
  have h2 : wadd w s.offset len = s.offset + len := wadd_eq _ _ _ hov
  simp only [StableIo.read, hcb, h1, h2, PageMemory.stable_read_]
  rw [if_neg (by omega)]

theorem read_trunc (w : Nat) (s : StableIo) (len : Nat)
    (hcap : s.capacity * WASM_PAGE_SIZE_IN_BYTES < 2 ^ w)
    (hov : s.offset + len < 2 ^ w)
    (hlt : s.offset < s.capacity * WASM_PAGE_SIZE_IN_BYTES)
    (hgt : s.capacity * WASM_PAGE_SIZE_IN_BYTES < s.offset + len) :
    s.read w len =
      (.ok (readBytes s.memory.data s.offset
          (s.capacity * WASM_PAGE_SIZE_IN_BYTES - s.offset)),
        { s with offset := s.capacity * WASM_PAGE_SIZE_IN_BYTES }) := by
  have hcb : s.capacity * WASM_PAGE_SIZE_IN_BYTES % 2 ^ w
      = s.capacity * WASM_PAGE_SIZE_IN_BYTES := Nat.mod_eq_of_lt hcap
  have h1 : wadd w len s.offset = len + s.offset := wadd_eq _ _ _ (by omega)
  have h2 : wadd w s.offset (s.capacity * WASM_PAGE_SIZE_IN_BYTES - s.offset)
      = s.capacity * WASM_PAGE_SIZE_IN_BYTES := by
    rw [wadd_eq _ _ _ (by omega)]
    omega
  simp only [StableIo.read, hcb, h1, h2, PageMemory.stable_read_]
  rw [if_pos (by omega), if_pos hlt]

theorem read_oob (w : Nat) (s : StableIo) (len : Nat)
    (hcap : s.capacity * WASM_PAGE_SIZE_IN_BYTES < 2 ^ w)
    (hov : s.offset + len < 2 ^ w)
    (hge : s.capacity * WASM_PAGE_SIZE_IN_BYTES ≤ s.offset)
    (hgt : s.capacity * WASM_PAGE_SIZE_IN_BYTES < s.offset + len) :
    s.read w len = (.error .OutOfBounds, s) := by
  have hcb : s.capacity * WASM_PAGE_SIZE_IN_BYTES % 2 ^ w
      = s.capacity * WASM_PAGE_SIZE_IN_BYTES := Nat.mod_eq_of_lt hcap
  have h1 : wadd w len s.offset = len + s.offset := wadd_eq _ _ _ (by omega)
  simp only [StableIo.read, hcb, h1]
  rw [if_pos (by omega), if_neg (by omega)]

theorem write_error_eq (w : Nat) (s : StableIo) (buf : List Nat)
    (e : StableMemoryError)
    (hbound : s.offset + buf.length + WASM_PAGE_SIZE_IN_BYTES < 2 ^ w)
    (hmax : s.memory.maxPages < 2 ^ w)
    (herr : (s.write w buf).1 = .error e) :
    e = .OutOfMemory ∧ s.write w buf = (.error .OutOfMemory, s) := by
  rcases le_or_lt (ceilPages (s.offset + buf.length)) s.capacity with hle | hgt
  · rw [write_nogrow w s buf hbound hle] at herr
    simp at herr
  · rcases le_or_lt
        (s.memory.pages + (ceilPages (s.offset + buf.length) - s.capacity))
        s.memory.maxPages with hfit | hnofit
    · rw [write_grow_ok w s buf hbound hmax hgt hfit] at herr
      simp at herr
    · have hw := write_grow_fail w s buf hbound hgt hnofit
      refine ⟨?_, hw⟩
      rw [hw] at herr
      cases e with
      | OutOfMemory => rfl
      | OutOfBounds => simp at herr


/-! Claim theorems. -/

/-- C1: for every cursor with cached capacity `c` (capacity in bytes
`c * 65536`) and every read of a buffer of length `n > 0`: at an offset at or
past the capacity in bytes the read fails with `OutOfBounds` and the cursor is
unchanged; at an offset below the capacity whose end would overrun, the read
succeeds with exactly `capacity_bytes - offset` bytes and advances the offset
by that count; otherwise the read succeeds with exactly `n` bytes and advances
the offset by `n`.  (Stated under no-overflow side conditions of the address
width.) -/
theorem c1_read_cases (w : Nat) (s : StableIo) (n : Nat)
    (hn : 0 < n)
    (hcap : s.capacity * WASM_PAGE_SIZE_IN_BYTES < 2 ^ w)
    (hov : s.offset + n < 2 ^ w) :
    (s.capacity * WASM_PAGE_SIZE_IN_BYTES ≤ s.offset →
      s.read w n = (.error .OutOfBounds, s)) ∧
    (s.offset < s.capacity * WASM_PAGE_SIZE_IN_BYTES →
      s.capacity * WASM_PAGE_SIZE_IN_BYTES < s.offset + n →
      ∃ bytes, s.read w n =
          (.ok bytes, { s with offset := s.capacity * WASM_PAGE_SIZE_IN_BYTES }) ∧
        bytes.length = s.capacity * WASM_PAGE_SIZE_IN_BYTES - s.offset) ∧
    (s.offset + n ≤ s.capacity * WASM_PAGE_SIZE_IN_BYTES →
      ∃ bytes, s.read w n = (.ok bytes, { s with offset := s.offset + n }) ∧
        bytes.length = n) := by
  refine ⟨?_, ?_, ?_⟩
  · intro hge
    exact read_oob w s n hcap hov hge (by omega)
  · intro hlt hgt
    exact ⟨_, read_trunc w s n hcap hov hlt hgt, readBytes_length _ _ _⟩
  · intro hle
    exact ⟨_, read_full w s n hcap hov hle, readBytes_length _ _ _⟩

/-- Witness for C1: the short-read scenario — cached capacity one page,
offset 60000, reading 10000 bytes yields the 5536 available bytes. -/
theorem c1_read_cases_witness :
    (0 < 10000 ∧ sio1.capacity * WASM_PAGE_SIZE_IN_BYTES < 2 ^ 32 ∧
      sio1.offset + 10000 < 2 ^ 32 ∧
      sio1.offset < sio1.capacity * WASM_PAGE_SIZE_IN_BYTES ∧
      sio1.capacity * WASM_PAGE_SIZE_IN_BYTES < sio1.offset + 10000) ∧
    (∃ bytes, sio1.read 32 10000 =
        (.ok bytes, { sio1 with offset := sio1.capacity * WASM_PAGE_SIZE_IN_BYTES }) ∧
      bytes.length = sio1.capacity * WASM_PAGE_SIZE_IN_BYTES - sio1.offset) :=
  ⟨⟨by decide, by decide, by decide, by decide, by decide⟩,
    (c1_read_cases 32 sio1 10000 (by decide) (by decide) (by decide)).2.1
      (by decide) (by decide)⟩

/-- C2: a write grows by exactly the rounded-up page shortfall when the
required capacity exceeds the cached one, and not at all otherwise; on
success it performs the raw write at the old offset, advances the offset by
the buffer length, and returns the full buffer length.  (Stated under
no-overflow side conditions of the address width.) -/
theorem c2_write_grow_exact (w : Nat) (s : StableIo) (buf : List Nat)
    (hbound : s.offset + buf.length + WASM_PAGE_SIZE_IN_BYTES < 2 ^ w)
    (hmax : s.memory.maxPages < 2 ^ w) :
    (ceilPages (s.offset + buf.length) ≤ s.capacity →
      s.write w buf =
        (.ok buf.length,
          { s with offset := s.offset + buf.length,
                   memory := s.memory.stable_write_ s.offset buf })) ∧
    (s.capacity < ceilPages (s.offset + buf.length) →
      ∀ k s1, s.write w buf = (.ok k, s1) →
        s1.memory.pages =
          s.memory.pages + (ceilPages (s.offset + buf.length) - s.capacity) ∧
        s1.capacity = s1.memory.pages) ∧
    (∀ k s1, s.write w buf = (.ok k, s1) →
      k = buf.length ∧ s1.offset = s.offset + buf.length ∧
      s1.memory.data = writeBytes s.memory.data s.offset buf) := by
  refine ⟨fun hle => write_nogrow w s buf hbound hle, ?_, ?_⟩
  · intro hgt k s1 hok
    rcases le_or_lt
        (s.memory.pages + (ceilPages (s.offset + buf.length) - s.capacity))
        s.memory.maxPages with hfit | hnofit
    · rw [write_grow_ok w s buf hbound hmax hgt hfit] at hok
      injection hok with ha hb
      subst hb
      exact ⟨rfl, rfl⟩
    · rw [write_grow_fail w s buf hbound hgt hnofit] at hok
      simp at hok
  · intro k s1 hok
    rcases le_or_lt (ceilPages (s.offset + buf.length)) s.capacity with hle | hgt
    · rw [write_nogrow w s buf hbound hle] at hok
      injection hok with ha hb
      injection ha with ha
      subst hb
      exact ⟨ha.symm, rfl, rfl⟩
    · rcases le_or_lt
          (s.memory.pages + (ceilPages (s.offset + buf.length) - s.capacity))
          s.memory.maxPages with hfit | hnofit
      · rw [write_grow_ok w s buf hbound hmax hgt hfit] at hok
        injection hok with ha hb
        injection ha with ha
        subst hb
        exact ⟨ha.symm, rfl, rfl⟩
      · rw [write_grow_fail w s buf hbound hgt hnofit] at hok
        simp at hok

/-- Witness for C2: writing three bytes on a zero-page region grows by
exactly one page and leaves the cached capacity equal to the new page
count. -/
theorem c2_write_grow_exact_witness :
    (sioA.offset + ([1, 2, 3] : List Nat).length + WASM_PAGE_SIZE_IN_BYTES < 2 ^ 32 ∧
      sioA.memory.maxPages < 2 ^ 32 ∧
      sioA.capacity < ceilPages (sioA.offset + ([1, 2, 3] : List Nat).length)) ∧
    ((sioA.write 32 [1, 2, 3]).2.memory.pages =
        sioA.memory.pages +
          (ceilPages (sioA.offset + ([1, 2, 3] : List Nat).length) - sioA.capacity) ∧
      (sioA.write 32 [1, 2, 3]).2.capacity = (sioA.write 32 [1, 2, 3]).2.memory.pages) :=
  ⟨⟨by decide, by decide, by decide⟩,
    (c2_write_grow_exact 32 sioA [1, 2, 3] (by decide) (by decide)).2.1
      (by decide) 3 (sioA.write 32 [1, 2, 3]).2 rfl⟩

/-- C3: when `grow k` succeeds and the capability reported prior page count
`p`, the cached capacity afterwards is `p + k` — the capability's own report
is the basis, not the cursor's previously cached capacity (which the
statement leaves completely unconstrained). -/
theorem c3_grow_capacity (w : Nat) (s : StableIo) (k p : Nat) (m : PageMemory)
    (hrep : s.memory.stable_grow_ k = .ok (p, m))
    (hw : p + k < 2 ^ w) :
    (s.grow w k).1 = .ok () ∧ (s.grow w k).2.capacity = p + k := by
  unfold StableIo.grow
  rw [hrep]
  exact ⟨rfl, wadd_eq _ _ _ hw⟩

/-- Witness for C3: growing a one-page region (with a cursor whose cached
capacity is deliberately stale) by two pages caches capacity `1 + 2`. -/
theorem c3_grow_capacity_witness :
    ((StableIo.mk 0 7 memB).memory.stable_grow_ 2 =
        .ok (1, { pages := 3, maxPages := 8, data := memB.data }) ∧ 1 + 2 < 2 ^ 32) ∧
    (((StableIo.mk 0 7 memB).grow 32 2).1 = .ok () ∧
      ((StableIo.mk 0 7 memB).grow 32 2).2.capacity = 1 + 2) :=
  ⟨⟨rfl, by decide⟩,
    c3_grow_capacity 32 (StableIo.mk 0 7 memB) 2 1
      { pages := 3, maxPages := 8, data := memB.data } rfl (by decide)⟩

/-- C4: a write whose implicit grow fails returns `OutOfMemory` and leaves
the whole cursor — offset, cached capacity, and the underlying memory (page
count and bytes) — exactly as it was: no partial growth and no raw write.
(Stated under no-overflow side conditions of the address width.) -/
theorem c4_write_oom_no_effect (w : Nat) (s : StableIo) (buf : List Nat)
    (e : StableMemoryError)
    (hbound : s.offset + buf.length + WASM_PAGE_SIZE_IN_BYTES < 2 ^ w)
    (hmax : s.memory.maxPages < 2 ^ w)
    (herr : (s.write w buf).1 = .error e) :
    e = .OutOfMemory ∧ (s.write w buf).2 = s := by
  obtain ⟨h1, h2⟩ := write_error_eq w s buf e hbound hmax herr
  exact ⟨h1, by rw [h2]⟩

/-- Witness for C4: on a region whose host ceiling is zero pages, a one-byte
write fails with `OutOfMemory` and the cursor is untouched. -/
theorem c4_write_oom_no_effect_witness :
    (((StableIo.with_memory memC 0).offset + ([5] : List Nat).length +
        WASM_PAGE_SIZE_IN_BYTES < 2 ^ 32) ∧
      (StableIo.with_memory memC 0).memory.maxPages < 2 ^ 32 ∧
      ((StableIo.with_memory memC 0).write 32 [5]).1 = .error .OutOfMemory) ∧
    (StableMemoryError.OutOfMemory = .OutOfMemory ∧
      ((StableIo.with_memory memC 0).write 32 [5]).2 = StableIo.with_memory memC 0) :=
  ⟨⟨by decide, by decide, rfl⟩,
    c4_write_oom_no_effect 32 (StableIo.with_memory memC 0) [5] .OutOfMemory
      (by decide) (by decide) rfl⟩

theorem read_error_state (w : Nat) (s : StableIo) (len : Nat) (e : StableMemoryError)
    (he : (s.read w len).1 = .error e) : s.read w len = (.error e, s) := by
  simp only [StableIo.read] at he ⊢
  by_cases h1 : s.capacity * WASM_PAGE_SIZE_IN_BYTES % 2 ^ w < wadd w len s.offset
  · by_cases h2 : s.offset < s.capacity * WASM_PAGE_SIZE_IN_BYTES % 2 ^ w
    · rw [if_pos h1, if_pos h2] at he
      simp at he
    · rw [if_pos h1, if_neg h2] at he ⊢
      simp only [Prod.fst] at he
      cases e with
      | OutOfBounds => rfl
      | OutOfMemory => simp at he
  · rw [if_neg h1] at he
    simp at he

theorem toI64_eq (x : Nat) (h : x < 2 ^ 63) : toI64 x = (x : Int) := by
  unfold toI64
  rw [Nat.mod_eq_of_lt (lt_trans h (by norm_num)), if_pos h]

theorem wrapI64_eq (v : Int) (h0 : -2 ^ 63 ≤ v) (h1 : v < 2 ^ 63) : wrapI64 v = v := by
  unfold wrapI64
  have h2 : (2 : Int) ^ 64 = 18446744073709551616 := by norm_num
  have h3 : (2 : Int) ^ 63 = 9223372036854775808 := by norm_num
  rw [h2, h3]
  rw [h3] at h1
  rw [h3] at h0
  omega

theorem toAddr_eq (w : Nat) (v : Int) (h0 : 0 ≤ v) (h1 : v < ((2 ^ w : Nat) : Int)) :
    toAddr w v = v.toNat := by
  unfold toAddr
  rw [Int.emod_eq_of_lt h0 h1]

theorem read_fresh_full (w : Nat) (m : PageMemory) (o len : Nat)
    (hcap : m.pages * WASM_PAGE_SIZE_IN_BYTES < 2 ^ w)
    (hov : o + len < 2 ^ w)
    (hle : o + len ≤ m.pages * WASM_PAGE_SIZE_IN_BYTES) :
    (StableIo.with_memory m o).read w len =
      (.ok (readBytes m.data o len),
        { offset := o + len, capacity := m.pages, memory := m }) :=
  read_full w (StableIo.with_memory m o) len hcap hov hle

theorem writeSeq_spec (w : Nat) (bufs : List (List Nat)) :
    ∀ (s s1 : StableIo) (u : Unit),
    s.capacity = s.memory.pages →
    s.memory.pages ≤ s.memory.maxPages →
    s.memory.maxPages < 2 ^ w →
    s.offset + totalLen bufs + WASM_PAGE_SIZE_IN_BYTES < 2 ^ w →
    StableIo.writeSeq w s bufs = (.ok u, s1) →
    s1.offset = s.offset + totalLen bufs ∧
    s1.capacity = s1.memory.pages ∧
    s1.memory.maxPages = s.memory.maxPages ∧
    s1.memory.pages ≤ s1.memory.maxPages ∧
    (bufs ≠ [] → s1.offset ≤ s1.capacity * WASM_PAGE_SIZE_IN_BYTES) := by
  induction bufs with
  | nil =>
      intro s s1 u hinv hpg hmax hbound hrun
      simp only [StableIo.writeSeq] at hrun
      injection hrun with h1 h2
      subst h2
      exact ⟨by simp [totalLen], hinv, rfl, hpg, fun h => absurd rfl h⟩
  | cons b rest ih =>
      intro s s1 u hinv hpg hmax hbound hrun
      have hbr : totalLen (b :: rest) = b.length + totalLen rest := by
        simp [totalLen]
      have hb : s.offset + b.length + WASM_PAGE_SIZE_IN_BYTES < 2 ^ w := by
        rw [hbr] at hbound
        omega
      rcases le_or_lt (ceilPages (s.offset + b.length)) s.capacity with hle | hgt
      · simp only [StableIo.writeSeq, write_nogrow w s b hb hle] at hrun
        obtain ⟨g1, g2, g3, g4, g5⟩ := ih
          { s with offset := s.offset + b.length,
                   memory := s.memory.stable_write_ s.offset b }
          s1 u hinv hpg hmax
          (show s.offset + b.length + totalLen rest + WASM_PAGE_SIZE_IN_BYTES < 2 ^ w by
            rw [hbr] at hbound; omega) hrun
        have g1a : s1.offset = s.offset + b.length + totalLen rest := g1
        refine ⟨?_, g2, g3, g4, fun _ => ?_⟩
        · rw [hbr]
          omega
        · rcases eq_or_ne rest [] with hr | hr
          · subst hr
            simp only [StableIo.writeSeq] at hrun
            injection hrun with k1 k2
            subst k2
            show s.offset + b.length ≤ s.capacity * WASM_PAGE_SIZE_IN_BYTES
            exact ceilPages_le_mul _ _ hle
          · exact g5 hr
      · rcases le_or_lt
            (s.memory.pages + (ceilPages (s.offset + b.length) - s.capacity))
            s.memory.maxPages with hfit | hnofit
        · simp only [StableIo.writeSeq,
            write_grow_ok w s b hb hmax hgt hfit] at hrun
          obtain ⟨g1, g2, g3, g4, g5⟩ := ih
            { offset := s.offset + b.length,
              capacity := s.memory.pages + (ceilPages (s.offset + b.length) - s.capacity),
              memory :=
                { pages := s.memory.pages + (ceilPages (s.offset + b.length) - s.capacity),
                  maxPages := s.memory.maxPages,
                  data := writeBytes s.memory.data s.offset b } }
            s1 u rfl hfit hmax
            (show s.offset + b.length + totalLen rest + WASM_PAGE_SIZE_IN_BYTES < 2 ^ w by
              rw [hbr] at hbound; omega) hrun
          have g1a : s1.offset = s.offset + b.length + totalLen rest := g1
          refine ⟨?_, g2, g3, g4, fun _ => ?_⟩
          · rw [hbr]
            omega
          · rcases eq_or_ne rest [] with hr | hr
            · subst hr
              simp only [StableIo.writeSeq] at hrun
              injection hrun with k1 k2
              subst k2
              have hcm := le_ceilPages_mul (s.offset + b.length)
              show s.offset + b.length ≤
                (s.memory.pages + (ceilPages (s.offset + b.length) - s.capacity)) *
                  WASM_PAGE_SIZE_IN_BYTES
              have hck : s.memory.pages +
                  (ceilPages (s.offset + b.length) - s.capacity) =
                  ceilPages (s.offset + b.length) := by omega
              rw [hck]
              exact hcm
            · exact g5 hr
        · simp only [StableIo.writeSeq,
            write_grow_fail w s b hb hgt hnofit] at hrun
          simp at hrun

/-- C5 as stated is refuted by the empty sequence of writes: a Writer
constructed at offset 1 over a zero-page region, after the empty sequence
(whose lengths sum to 0), has offset `1 + 0` as claimed, but its cached
capacity times the page size is `0`, which is not `≥` the offset. -/
theorem c5_counterexample :
    StableIo.writeSeq 32 (StableIo.with_memory memA 1) [] =
      (.ok (), StableIo.with_memory memA 1) ∧
    (StableIo.with_memory memA 1).offset = 1 + totalLen [] ∧
    ¬ (StableIo.with_memory memA 1).capacity * WASM_PAGE_SIZE_IN_BYTES ≥
        (StableIo.with_memory memA 1).offset :=
  ⟨rfl, by decide, by decide⟩

/-- C5 (amended): for every Writer constructed at initial offset `o0` and
every **nonempty** finite sequence of successful writes with no intervening
seek, whose buffer lengths sum to `t`, afterwards the offset equals `o0 + t`
and the cached capacity times the page size is at least the offset.  (For the
empty sequence only the offset equation holds, as the counterexample shows;
stated under no-overflow side conditions of the address width.) -/
theorem c5_writer_offset_capacity (w : Nat) (mem : PageMemory) (o0 : Nat)
    (bufs : List (List Nat)) (u : Unit) (s1 : StableIo)
    (hne : bufs ≠ [])
    (hpg : mem.pages ≤ mem.maxPages)
    (hmax : mem.maxPages < 2 ^ w)
    (hbound : o0 + totalLen bufs + WASM_PAGE_SIZE_IN_BYTES < 2 ^ w)
    (hrun : StableIo.writeSeq w (StableIo.with_memory mem o0) bufs = (.ok u, s1)) :
    s1.offset = o0 + totalLen bufs ∧
    s1.offset ≤ s1.capacity * WASM_PAGE_SIZE_IN_BYTES := by
  obtain ⟨h1, _, _, _, h5⟩ :=
    writeSeq_spec w bufs (StableIo.with_memory mem o0) s1 u rfl hpg hmax hbound hrun
  exact ⟨h1, h5 hne⟩

/-- Witness for C5: two successful writes (3 then 2 bytes) from offset 0 on a
zero-page region leave the offset at 5 and one page of capacity. -/
theorem c5_writer_offset_capacity_witness :
    (([[1, 2, 3], [4, 5]] : List (List Nat)) ≠ [] ∧
      memA.pages ≤ memA.maxPages ∧ memA.maxPages < 2 ^ 32 ∧
      0 + totalLen [[1, 2, 3], [4, 5]] + WASM_PAGE_SIZE_IN_BYTES < 2 ^ 32 ∧
      StableIo.writeSeq 32 (StableIo.with_memory memA 0) [[1, 2, 3], [4, 5]] =
        (.ok (), c5wit)) ∧
    (c5wit.offset = 0 + totalLen [[1, 2, 3], [4, 5]] ∧
      c5wit.offset ≤ c5wit.capacity * WASM_PAGE_SIZE_IN_BYTES) :=
  ⟨⟨by decide, by decide, by decide, by decide, rfl⟩,
    c5_writer_offset_capacity 32 memA 0 [[1, 2, 3], [4, 5]] () c5wit
      (by decide) (by decide) (by decide) (by decide) rfl⟩

/-- C6: `seek` sets the offset with no bounds validation and no capability
call (capacity and memory are untouched), returns the new offset, and never
fails: `Start n` sets it to `n`; `End n` sets it to the cached capacity in
bytes plus `n` in signed arithmetic; `Current n` adds `n` to the current
offset in signed arithmetic.  (Stated under no-overflow side conditions of
the address width and of the 64-bit signed intermediates.) -/
theorem c6_seek_cases (w : Nat) (s : StableIo)
    (hw : w ≤ 64)
    (hoff63 : s.offset < 2 ^ 63)
    (hcapw : s.capacity * WASM_PAGE_SIZE_IN_BYTES < 2 ^ w)
    (hcap63 : s.capacity * WASM_PAGE_SIZE_IN_BYTES < 2 ^ 63) :
    (∀ n : Nat, n < 2 ^ w → s.seek w (.start n) = (n, { s with offset := n })) ∧
    (∀ n : Int, 0 ≤ ((s.capacity * WASM_PAGE_SIZE_IN_BYTES : Nat) : Int) + n →
      ((s.capacity * WASM_PAGE_SIZE_IN_BYTES : Nat) : Int) + n < ((2 ^ w : Nat) : Int) →
      ((s.capacity * WASM_PAGE_SIZE_IN_BYTES : Nat) : Int) + n < 2 ^ 63 →
      ∃ o : Nat, s.seek w (.fromEnd n) = (o, { s with offset := o }) ∧
        (o : Int) = ((s.capacity * WASM_PAGE_SIZE_IN_BYTES : Nat) : Int) + n) ∧
    (∀ n : Int, 0 ≤ (s.offset : Int) + n →
      (s.offset : Int) + n < ((2 ^ w : Nat) : Int) →
      (s.offset : Int) + n < 2 ^ 63 →
      ∃ o : Nat, s.seek w (.current n) = (o, { s with offset := o }) ∧
        (o : Int) = (s.offset : Int) + n) := by
  have h64 : (2 : Nat) ^ w ≤ 2 ^ 64 := Nat.pow_le_pow_right (by norm_num) hw
  refine ⟨?_, ?_, ?_⟩
  · intro n hn
    simp only [StableIo.seek]
    rw [Nat.mod_eq_of_lt hn, Nat.mod_eq_of_lt (lt_of_lt_of_le hn h64)]
  · intro n h0 h1 h2
    have e1 : s.capacity * WASM_PAGE_SIZE_IN_BYTES % 2 ^ w
        = s.capacity * WASM_PAGE_SIZE_IN_BYTES := Nat.mod_eq_of_lt hcapw
    have e2 : toI64 (s.capacity * WASM_PAGE_SIZE_IN_BYTES)
        = ((s.capacity * WASM_PAGE_SIZE_IN_BYTES : Nat) : Int) := toI64_eq _ hcap63
    have e3 : wrapI64 (((s.capacity * WASM_PAGE_SIZE_IN_BYTES : Nat) : Int) + n)
        = ((s.capacity * WASM_PAGE_SIZE_IN_BYTES : Nat) : Int) + n :=
      wrapI64_eq _ (le_trans (by norm_num) h0) h2
    have e4 : toAddr w (((s.capacity * WASM_PAGE_SIZE_IN_BYTES : Nat) : Int) + n)
        = (((s.capacity * WASM_PAGE_SIZE_IN_BYTES : Nat) : Int) + n).toNat :=
      toAddr_eq w _ h0 h1
    have holt64 : (((s.capacity * WASM_PAGE_SIZE_IN_BYTES : Nat) : Int) + n).toNat
        < 2 ^ 64 := by omega
    refine ⟨(((s.capacity * WASM_PAGE_SIZE_IN_BYTES : Nat) : Int) + n).toNat, ?_,
      Int.toNat_of_nonneg h0⟩
    simp only [StableIo.seek, e1, e2, e3, e4, Nat.mod_eq_of_lt holt64]
  · intro n h0 h1 h2
    have e2 : toI64 s.offset = (s.offset : Int) := toI64_eq _ hoff63
    have e3 : wrapI64 ((s.offset : Int) + n) = (s.offset : Int) + n :=
      wrapI64_eq _ (le_trans (by norm_num) h0) h2
    have e4 : toAddr w ((s.offset : Int) + n) = ((s.offset : Int) + n).toNat :=
      toAddr_eq w _ h0 h1
    have holt64 : ((s.offset : Int) + n).toNat < 2 ^ 64 := by omega
    refine ⟨((s.offset : Int) + n).toNat, ?_, Int.toNat_of_nonneg h0⟩
    simp only [StableIo.seek, e2, e3, e4, Nat.mod_eq_of_lt holt64]

/-- Witness for C6 at a cursor with offset 60000 and one cached page:
an absolute seek to 50, an end-relative seek by −6, and a current-relative
seek by −100. -/
theorem c6_seek_cases_witness :
    (32 ≤ 64 ∧ sio1.offset < 2 ^ 63 ∧
      sio1.capacity * WASM_PAGE_SIZE_IN_BYTES < 2 ^ 32 ∧
      sio1.capacity * WASM_PAGE_SIZE_IN_BYTES < 2 ^ 63) ∧
    sio1.seek 32 (.start 50) = (50, { sio1 with offset := 50 }) ∧
    (∃ o : Nat, sio1.seek 32 (.fromEnd (-6)) = (o, { sio1 with offset := o }) ∧
      (o : Int) = ((sio1.capacity * WASM_PAGE_SIZE_IN_BYTES : Nat) : Int) + (-6)) ∧
    (∃ o : Nat, sio1.seek 32 (.current (-100)) = (o, { sio1 with offset := o }) ∧
      (o : Int) = (sio1.offset : Int) + (-100)) :=
  ⟨⟨by decide, by decide, by decide, by decide⟩,
    (c6_seek_cases 32 sio1 (by decide) (by decide) (by decide) (by decide)).1
      50 (by decide),
    (c6_seek_cases 32 sio1 (by decide) (by decide) (by decide) (by decide)).2.1
      (-6) (by decide) (by decide) (by decide),
    (c6_seek_cases 32 sio1 (by decide) (by decide) (by decide) (by decide)).2.2
      (-100) (by decide) (by decide) (by decide)⟩

/-- C7 as stated is refuted: a zero-length read at offset 65537 on a cursor
whose cached capacity is one page (65536 bytes) fails with `OutOfBounds`
instead of succeeding, and this error arises at an offset strictly past — not
equal to — the capacity in bytes. -/
theorem c7_counterexample :
    ((StableIo.mk 65537 1 memB).read 32 0).1 = .error .OutOfBounds ∧
    (StableIo.mk 65537 1 memB).capacity * WASM_PAGE_SIZE_IN_BYTES <
      (StableIo.mk 65537 1 memB).offset :=
  ⟨rfl, by decide⟩

/-- C7 (amended): a zero-length read succeeds with no bytes and an unchanged
offset exactly on the offsets that are at most the cached capacity in bytes;
an `OutOfBounds` error surfaces exactly when the offset is strictly past the
capacity in bytes, or equal to it with a nonzero requested length.  (Stated
under no-overflow side conditions of the address width.) -/
theorem c7_zero_read_and_oob (w : Nat) (s : StableIo) (len : Nat)
    (hcap : s.capacity * WASM_PAGE_SIZE_IN_BYTES < 2 ^ w)
    (hov : s.offset + len < 2 ^ w) :
    (s.offset ≤ s.capacity * WASM_PAGE_SIZE_IN_BYTES →
      s.read w 0 = (.ok [], { s with offset := s.offset + 0 })) ∧
    ((∃ e, (s.read w len).1 = .error e) ↔
      (s.capacity * WASM_PAGE_SIZE_IN_BYTES < s.offset ∨
        (s.offset = s.capacity * WASM_PAGE_SIZE_IN_BYTES ∧ 0 < len))) := by
  constructor
  · intro hle
    rw [read_full w s 0 hcap (by omega) (by omega)]
    simp [readBytes]
  · constructor
    · rintro ⟨e, he⟩
      rcases le_or_lt (s.offset + len) (s.capacity * WASM_PAGE_SIZE_IN_BYTES)
          with hle | hgt
      · rw [read_full w s len hcap hov hle] at he
        simp at he
      · rcases lt_or_le s.offset (s.capacity * WASM_PAGE_SIZE_IN_BYTES) with hlt | hge
        · rw [read_trunc w s len hcap hov hlt hgt] at he
          simp at he
        · omega
    · intro h
      refine ⟨.OutOfBounds, ?_⟩
      rw [read_oob w s len hcap hov (by omega) (by omega)]

/-- Witness for C7: the zero-length read at offset 60000 with one cached page
succeeds with no bytes, and a one-byte read there is not an error. -/
theorem c7_zero_read_and_oob_witness :
    (sio1.capacity * WASM_PAGE_SIZE_IN_BYTES < 2 ^ 32 ∧ sio1.offset + 0 < 2 ^ 32 ∧
      sio1.offset ≤ sio1.capacity * WASM_PAGE_SIZE_IN_BYTES) ∧
    sio1.read 32 0 = (.ok [], { sio1 with offset := sio1.offset + 0 }) :=
  ⟨⟨by decide, by decide, by decide⟩,
    (c7_zero_read_and_oob 32 sio1 0 (by decide) (by decide)).1 (by decide)⟩

/-- C8: after a Writer freshly constructed over `mem` at offset `o`
successfully writes the byte sequence `S`, a fresh Reader over the resulting
memory at offset `o` reads exactly `S` back when asked for `S.length` bytes.
(Stated under no-overflow side conditions of the address width.) -/
theorem c8_round_trip (w : Nat) (mem : PageMemory) (o : Nat) (S : List Nat)
    (k : Nat) (s1 : StableIo)
    (hpg : mem.pages ≤ mem.maxPages)
    (hmaxb : mem.maxPages * WASM_PAGE_SIZE_IN_BYTES < 2 ^ w)
    (hbound : o + S.length + WASM_PAGE_SIZE_IN_BYTES < 2 ^ w)
    (hok : (StableIo.with_memory mem o).write w S = (.ok k, s1)) :
    ∃ s2, (StableIo.with_memory s1.memory o).read w S.length = (.ok S, s2) := by
  have hone : mem.maxPages * 1 ≤ mem.maxPages * WASM_PAGE_SIZE_IN_BYTES :=
    Nat.mul_le_mul_left _ (by simp [pageSize_eq])
  have hmax : mem.maxPages < 2 ^ w := by omega
  have hbytes : readBytes (writeBytes mem.data o S) o S.length = S :=
    readBytes_writeBytes mem.data o S
  rcases le_or_lt (ceilPages (o + S.length)) mem.pages with hle | hgt
  · rw [write_nogrow w (StableIo.with_memory mem o) S hbound hle] at hok
    injection hok with ha hb
    subst hb
    have hre := read_fresh_full w
      (PageMemory.mk mem.pages mem.maxPages (writeBytes mem.data o S)) o S.length
      (lt_of_le_of_lt (Nat.mul_le_mul_right _ hpg) hmaxb)
      (by omega)
      (ceilPages_le_mul _ _ hle)
    rw [hbytes] at hre
    exact ⟨_, hre⟩
  · rcases le_or_lt (mem.pages + (ceilPages (o + S.length) - mem.pages))
        mem.maxPages with hfit | hnofit
    · rw [write_grow_ok w (StableIo.with_memory mem o) S hbound hmax hgt hfit] at hok
      injection hok with ha hb
      subst hb
      have hre := read_fresh_full w
        (PageMemory.mk (mem.pages + (ceilPages (o + S.length) - mem.pages))
          mem.maxPages (writeBytes mem.data o S)) o S.length
        (lt_of_le_of_lt (Nat.mul_le_mul_right _ hfit) hmaxb)
        (by omega)
        (by
          have h1 := le_ceilPages_mul (o + S.length)
          have h2 : mem.pages + (ceilPages (o + S.length) - mem.pages) =
              ceilPages (o + S.length) := by omega
          rw [h2]
          exact h1)
      rw [hbytes] at hre
      exact ⟨_, hre⟩
    · rw [write_grow_fail w (StableIo.with_memory mem o) S hbound hgt hnofit] at hok
      simp at hok

/-- Witness for C8: writing `[7, 8, 9]` at offset 2 on a zero-page region
(growing it to one page), then reading 3 bytes at offset 2 through a fresh
reader, yields `[7, 8, 9]`. -/
theorem c8_round_trip_witness :
    (memA.pages ≤ memA.maxPages ∧
      memA.maxPages * WASM_PAGE_SIZE_IN_BYTES < 2 ^ 32 ∧
      2 + ([7, 8, 9] : List Nat).length + WASM_PAGE_SIZE_IN_BYTES < 2 ^ 32 ∧
      (StableIo.with_memory memA 2).write 32 [7, 8, 9] = (.ok 3, c8wit)) ∧
    (∃ s2, (StableIo.with_memory c8wit.memory 2).read 32
        ([7, 8, 9] : List Nat).length = (.ok [7, 8, 9], s2)) :=
  ⟨⟨by decide, by decide, by decide, rfl⟩,
    c8_round_trip 32 memA 2 [7, 8, 9] 3 c8wit (by decide) (by decide) (by decide) rfl⟩

/-- C9: the buffered reader's `offset` reports the inner cursor's offset —
the position past the end of the bytes already fetched into the internal
buffer — and after a partial consumption of a refilled buffer it differs from
the logical position of the bytes the caller has consumed: reading one byte
through a buffer of size 4 delivers one byte but reports offset 4. -/
theorem c9_buffered_offset :
    (∀ r : BufferedStableReader, r.offset = r.inner.offset) ∧
    (rdr9.read 1).1 = .ok [0] ∧
    ((rdr9.read 1).2).offset = 4 ∧
    ((rdr9.read 1).2).offset ≠ rdr9.inner.offset + 1 :=
  ⟨fun r => rfl, rfl, rfl, by decide⟩

/-- C10: the `io::Read` implementation for the cursor never returns an error:
it always yields a success, and whenever the inner read fails (for any error,
including a genuine `OutOfBounds`) it returns a successful zero-byte read
with the cursor untouched — indistinguishable from end-of-stream. -/
theorem c10_io_read_never_errors (w : Nat) (s : StableIo) (len : Nat) :
    (∃ bytes s1, s.ioRead w len = (.ok bytes, s1)) ∧
    (∀ e, (s.read w len).1 = .error e → s.ioRead w len = (.ok [], s)) := by
  constructor
  · unfold StableIo.ioRead
    rcases hr : s.read w len with ⟨res, s1⟩
    cases res with
    | ok bytes => exact ⟨bytes, s1, rfl⟩
    | error e => exact ⟨[], s1, rfl⟩
  · intro e he
    have h := read_error_state w s len e he
    unfold StableIo.ioRead
    rw [h]

/-- Witness for C10: at offset 70000 with one cached page the inner read
fails with `OutOfBounds`, and the stream-level read returns a successful
zero-byte read with the cursor untouched. -/
theorem c10_io_read_never_errors_witness :
    ((StableIo.mk 70000 1 memB).read 32 5).1 = .error .OutOfBounds ∧
    (StableIo.mk 70000 1 memB).ioRead 32 5 = (.ok [], StableIo.mk 70000 1 memB) :=
  ⟨rfl, (c10_io_read_never_errors 32 (StableIo.mk 70000 1 memB) 5).2 .OutOfBounds rfl⟩
